import Mathlib

/-!
Verification of the NYT article extraction pipeline (`NYT_API.py`).

We shallowly embed the Python module: JSON-like values become the inductive
type `J`, Python dicts become association lists with dict-faithful
update (`dSet`) and lookup (`dGet`), the `NYTArticleExtractor` class becomes
a structure holding the attributes its constructor assigns, and the methods
`extract_nested_field`, `process_article` and `process_multiple_articles`
become Lean functions.  Exceptions are modelled with `Except`: the raised
Python exception classes (`FieldMissingError`, the `AttributeError` raised by
reading the never-assigned `self.required_fields`) become the constructors of
`PyError`.
-/

/-- A JSON-like Python value: `None`, `bool`, `int`, `str`, `list`, `dict`.
Dicts are insertion-ordered association lists, as in Python 3.7+. -/
inductive J where
  | null
  | bool (b : Bool)
  | num (n : Int)
  | str (s : String)
  | arr (xs : List J)
  | obj (kvs : List (String × J))

/-- Dict lookup: first binding of the key (Python dicts have unique keys). -/
def dGet (d : List (String × J)) (k : String) : Option J :=
  match d with
  | [] => none
  | (k', v) :: rest => if k = k' then some v else dGet rest k

/-- Dict assignment `d[k] = v`: overwrite in place if the key exists,
otherwise append (Python dict insertion order). -/
def dSet (d : List (String × J)) (k : String) (v : J) : List (String × J) :=
  match d with
  | [] => [(k, v)]
  | (k', v') :: rest => if k = k' then (k, v) :: rest else (k', v') :: dSet rest k v

/-- The keys of a dict, in insertion order. -/
def dKeys (d : List (String × J)) : List String := d.map Prod.fst

/-- Python truthiness of a `J` value (`if article['keywords']:`). -/
def truthy : J → Bool
  | .null => false
  | .bool b => b
  | .num n => n != 0
  | .str s => !(s == "")
  | .arr xs => !xs.isEmpty
  | .obj kvs => !kvs.isEmpty

/-- The Python exceptions that can escape `process_article`:
`FieldMissingError` (carrying the required field name and the record
identifier `article.get('_id', 'unknown')` interpolated into its message) and
the `AttributeError` raised when an attribute read on the extractor fails. -/
inductive PyError where
  | fieldMissing (field : String) (recordId : J)
  | attributeError (attr : String)

/-- The `NYTArticleExtractor` object state: exactly the attributes code can
set.  `required_fields` is `Option` because the constructor never assigns it;
reading it while it is `none` is the Python `AttributeError`. -/
structure NYTArticleExtractor where
  api_key : String
  base_url : String
  fields : List String
  all_fields : List String
  required_fields : Option (List String)
deriving DecidableEq, Repr

/-- `x is None` for a dict lookup result: the key is present with value
`None`. -/
def isNullBinding : Option J → Bool
  | some .null => true
  | _ => false

/-- Python `a or b` for a list literal left operand: the left operand is
returned when it is truthy (non-empty), otherwise the right. -/
def pyOrList (a : List String) (b : Option (List String)) : List String :=
  if a.isEmpty then b.getD [] else a

/-- Python `a or b` for an optional string left operand: falsy (`None` or
empty) selects the right operand. -/
def pyOrStr (a : Option String) (b : String) : String :=
  match a with
  | some s => if s = "" then b else s
  | none => b

/-- The fixed field catalog assigned to `self.all_fields` by the
constructor (`NYT_API.py` lines 36-42). -/
def catalogFields : List String :=
  ["_id", "headline", "byline", "abstract", "snippet", "source", "print_page", "multimedia",
   "document_type", "web_url",
   "pub_date", "news_desk", "section_name", "subsection_name", "type_of_material",
   "word_count", "uri",
   "keywords", "print_section"]

/-- `NYTArticleExtractor.__init__` (`NYT_API.py` lines 23-42).
Note line 35: `self.fields = ['_id', 'headline', 'pub_date'] or fields` — the
non-empty list literal is the left operand of `or`, so the caller-supplied
`fields` is never used; and no assignment to `self.required_fields` occurs
anywhere, so that attribute stays absent (`none`). -/
def NYTArticleExtractor.init (api_key : String) (base_url : Option String)
    (fields : Option (List String)) : NYTArticleExtractor :=
  { api_key := api_key
    base_url := pyOrStr base_url "https://api.nytimes.com/svc/search/v2/articlesearch.json"
    fields := pyOrList ["_id", "headline", "pub_date"] fields
    all_fields := catalogFields
    required_fields := none }

/-- `field_path.split('.')` helper: accumulate the current segment in
reverse. -/
def splitDotAux : List Char → List Char → List String
  | [], acc => [String.mk acc.reverse]
  | c :: cs, acc =>
    if c = '.' then String.mk acc.reverse :: splitDotAux cs []
    else splitDotAux cs (c :: acc)

/-- Python `field_path.split('.')`: the segments between dots, `[""]` for the
empty string. -/
def splitDot (s : String) : List String := splitDotAux s.data []

/-- `extract_nested_field` (`NYT_API.py` lines 107-128): split the path on
dots and walk; at any segment where the current value is not a dict or the
key is absent, return `None` (here `J.null`, Python's `None`). -/
def extract_nested_field (article : J) (field_path : String) : J :=
  walk (splitDot field_path) article
where
  walk : List String → J → J
    | [], value => value
    | path :: paths, value =>
      match value with
      | .obj kvs =>
        match dGet kvs path with
        | some v => walk paths v
        | none => .null
      | _ => .null

/-- One keyword element's contribution to the join
(`kw.get('value', '')` followed by `','.join` requiring a `str`):
`some s` when the element is a dict whose `value` entry is the string `s`
(or absent, contributing `""`); `none` when the element is not a dict
(`AttributeError` from `.get`) or its `value` entry is not a string
(`TypeError` from `join`). -/
def keywordValue : J → Option String
  | .obj kvs =>
    match dGet kvs "value" with
    | none => some ""
    | some (.str s) => some s
    | some _ => none
  | _ => none

/-- `','.join([kw.get('value', '') for kw in article['keywords']])`:
succeeds only when the keywords value is a list and every element yields a
string; any other shape raises (`AttributeError`/`TypeError`), modelled as
`none`. -/
def keywordsJoin : J → Option String
  | .arr kws => (kws.mapM keywordValue).map (String.intercalate ",")
  | _ => none

/-- The `processed['keywords']` computation (`NYT_API.py` lines 154-160):
present-and-truthy keywords are joined, with the `except (AttributeError,
TypeError)` handler degrading any failure to `""`; absent or falsy keywords
give `""`. -/
def keywordsField (article : List (String × J)) : String :=
  match dGet article "keywords" with
  | some kw => if truthy kw then (keywordsJoin kw).getD "" else ""
  | none => ""

/-! ### `json.dumps` / `json.loads`

`process_article` serializes nested catalog values with `json.dumps` and the
spec characterizes this as a round-trippable encoding.  We model the standard
library's encoder character by character in Python's default output format
(`", "` and `": "` separators, `ensure_ascii` escapes restricted here to the
quote, backslash, newline, tab and carriage-return escapes), together with a
decoder for that format, and prove the round trip. -/

/-- The character for a decimal digit `n < 10` (the argument is always a
digit at every use site; the final catch-all is arbitrary). -/
def digitChar : Nat → Char
  | 0 => '0'
  | 1 => '1'
  | 2 => '2'
  | 3 => '3'
  | 4 => '4'
  | 5 => '5'
  | 6 => '6'
  | 7 => '7'
  | 8 => '8'
  | 9 => '9'
  | _ => '0'

/-- Decimal digits, most significant first; the fuel argument (any bound
above the value) makes the recursion structural. -/
def natCharsAux : Nat → Nat → List Char
  | 0, _ => []
  | fuel + 1, n =>
    if n < 10 then [digitChar n]
    else natCharsAux fuel (n / 10) ++ [digitChar (n % 10)]

/-- Decimal digits of a natural number, most significant first. -/
def natChars (n : Nat) : List Char := natCharsAux (n + 1) n

/-- Decimal rendering of an integer, as `json.dumps` prints it. -/
def intChars (n : Int) : List Char :=
  if n < 0 then '-' :: natChars n.natAbs else natChars n.toNat

/-- JSON string escaping of one character. -/
def escapeChar (c : Char) : List Char :=
  if c = '"' then ['\\', '"']
  else if c = '\\' then ['\\', '\\']
  else if c = '\n' then ['\\', 'n']
  else if c = '\t' then ['\\', 't']
  else if c = '\r' then ['\\', 'r']
  else [c]

/-- JSON string escaping of a character sequence. -/
def escapeChars : List Char → List Char
  | [] => []
  | c :: cs => escapeChar c ++ escapeChars cs

/-- The four characters of the `null` keyword. -/
def nullChars : List Char := ['n', 'u', 'l', 'l']

/-- The four characters of the `true` keyword. -/
def trueChars : List Char := ['t', 'r', 'u', 'e']

/-- The five characters of the `false` keyword. -/
def falseChars : List Char := ['f', 'a', 'l', 's', 'e']

mutual

/-- The characters `json.dumps` emits for a value (default separators). -/
def dumpChars : J → List Char
  | .null => nullChars
  | .bool true => trueChars
  | .bool false => falseChars
  | .num n => intChars n
  | .str s => '"' :: (escapeChars s.data ++ ['"'])
  | .arr [] => ['[', ']']
  | .arr (x :: xs) => '[' :: (dumpChars x ++ dumpMoreElems xs)
  | .obj [] => ['{', '}']
  | .obj (kv :: kvs) => '{' :: (dumpMember kv ++ dumpMoreMembers kvs)

/-- Remaining array elements, each preceded by `", "`, then `]`. -/
def dumpMoreElems : List J → List Char
  | [] => [']']
  | x :: xs => ',' :: ' ' :: (dumpChars x ++ dumpMoreElems xs)

/-- One object member: quoted key, `": "`, value. -/
def dumpMember : String × J → List Char
  | (k, v) => '"' :: (escapeChars k.data ++ '"' :: ':' :: ' ' :: dumpChars v)

/-- Remaining object members, each preceded by `", "`, then `}`. -/
def dumpMoreMembers : List (String × J) → List Char
  | [] => ['}']
  | kv :: kvs => ',' :: ' ' :: (dumpMember kv ++ dumpMoreMembers kvs)

end

/-- `json.dumps` with its default options. -/
def json_dumps (v : J) : String := String.mk (dumpChars v)

/-- Undo `escapeChar` for the character following a backslash. -/
def unescapeChar (e : Char) : Option Char :=
  if e = '"' then some '"'
  else if e = '\\' then some '\\'
  else if e = 'n' then some '\n'
  else if e = 't' then some '\t'
  else if e = 'r' then some '\r'
  else none

/-- Decode a JSON string literal body (the opening quote already consumed):
the decoded characters plus the input after the closing quote. -/
def parseStringChars : List Char → Option (List Char × List Char)
  | [] => none
  | c :: rest =>
    if c = '"' then some ([], rest)
    else if c = '\\' then
      match rest with
      | [] => none
      | e :: rest' =>
        match unescapeChar e with
        | some d => (parseStringChars rest').map (fun p => (d :: p.1, p.2))
        | none => none
    else (parseStringChars rest).map (fun p => (c :: p.1, p.2))

/-- Numeric value of a digit character. -/
def digitVal (c : Char) : Nat := c.toNat - 48

/-- Split off the maximal leading run of digit characters. -/
def takeDigits : List Char → List Char × List Char
  | [] => ([], [])
  | c :: cs =>
    if c.isDigit then
      let p := takeDigits cs
      (c :: p.1, p.2)
    else ([], c :: cs)

/-- The number denoted by a digit run, most significant first. -/
def digitsVal (ds : List Char) : Nat :=
  ds.foldl (fun acc c => 10 * acc + digitVal c) 0

/-- Parse a nonempty digit run as a natural number. -/
def parseNat (cs : List Char) : Option (Nat × List Char) :=
  match takeDigits cs with
  | ([], _) => none
  | (ds, rest) => some (digitsVal ds, rest)

/-- Parse a JSON integer: an optional minus sign and a digit run. -/
def parseNumber (cs : List Char) : Option (J × List Char) :=
  match cs with
  | [] => none
  | c :: rest =>
    if c = '-' then (parseNat rest).map (fun p => (.num (-(p.1 : Int)), p.2))
    else (parseNat (c :: rest)).map (fun p => (.num (p.1 : Int), p.2))

mutual

/-- Decode one JSON value in `json.dumps`' output format.  The fuel
argument dominates the nesting and element count and only ever makes the
parser fail when exhausted. -/
def parseValue : Nat → List Char → Option (J × List Char)
  | 0, _ => none
  | fuel + 1, cs =>
    match cs with
    | [] => none
    | c :: rest =>
      if c = 'n' then
        match rest with
        | 'u' :: 'l' :: 'l' :: r => some (.null, r)
        | _ => none
      else if c = 't' then
        match rest with
        | 'r' :: 'u' :: 'e' :: r => some (.bool true, r)
        | _ => none
      else if c = 'f' then
        match rest with
        | 'a' :: 'l' :: 's' :: 'e' :: r => some (.bool false, r)
        | _ => none
      else if c = '"' then
        (parseStringChars rest).map (fun p => (.str (String.mk p.1), p.2))
      else if c = '[' then
        match rest with
        | ']' :: r => some (.arr [], r)
        | _ => (parseElems fuel rest).map (fun p => (.arr p.1, p.2))
      else if c = '{' then
        match rest with
        | '}' :: r => some (.obj [], r)
        | _ => (parseMembers fuel rest).map (fun p => (.obj p.1, p.2))
      else parseNumber (c :: rest)

/-- Decode the elements of a nonempty array: `value (", " value)* "]"`. -/
def parseElems : Nat → List Char → Option (List J × List Char)
  | 0, _ => none
  | fuel + 1, cs =>
    match parseValue fuel cs with
    | none => none
    | some (v, rest) =>
      match rest with
      | ']' :: rest' => some ([v], rest')
      | ',' :: ' ' :: rest' => (parseElems fuel rest').map (fun p => (v :: p.1, p.2))
      | _ => none

/-- Decode the members of a nonempty object:
`"key": value (", " "key": value)* "}"`. -/
def parseMembers : Nat → List Char → Option (List (String × J) × List Char)
  | 0, _ => none
  | fuel + 1, cs =>
    match cs with
    | '"' :: rest =>
      match parseStringChars rest with
      | none => none
      | some (kChars, rest1) =>
        match rest1 with
        | ':' :: ' ' :: rest2 =>
          match parseValue fuel rest2 with
          | none => none
          | some (v, rest3) =>
            match rest3 with
            | '}' :: rest4 => some ([(String.mk kChars, v)], rest4)
            | ',' :: ' ' :: rest4 =>
              (parseMembers fuel rest4).map (fun p => ((String.mk kChars, v) :: p.1, p.2))
            | _ => none
        | _ => none
    | _ => none

end

/-- `json.loads` for `json.dumps`' output format: decode one value and
require the input to be exhausted. -/
def json_loads (s : String) : Option J :=
  match parseValue (s.data.length + 1) s.data with
  | some (v, []) => some v
  | _ => none

mutual

/-- Fuel sufficient for `parseValue` to decode this value. -/
def jfuel : J → Nat
  | .null => 1
  | .bool _ => 1
  | .num _ => 1
  | .str _ => 1
  | .arr xs => 1 + jelems xs
  | .obj kvs => 1 + jmembers kvs

/-- Fuel sufficient for `parseElems` to decode these elements. -/
def jelems : List J → Nat
  | [] => 0
  | x :: xs => 1 + jfuel x + jelems xs

/-- Fuel sufficient for `parseMembers` to decode these members. -/
def jmembers : List (String × J) → Nat
  | [] => 0
  | (_, v) :: kvs => 1 + jfuel v + jmembers kvs

end

/-- The value the flattening loop stores for one catalog field
(`NYT_API.py` lines 164-170): serialize dicts and lists to a JSON string,
copy scalars, and store `None` for an absent key. -/
def catalogValue (article : List (String × J)) (field : String) : J :=
  match dGet article field with
  | some v =>
    match v with
    | .obj kvs => .str (json_dumps (.obj kvs))
    | .arr xs => .str (json_dumps (.arr xs))
    | _ => v
  | none => .null

/-- The extraction phase of `process_article` (`NYT_API.py` lines 144-170):
the `processed` dict as it stands when the required-field loop is reached. -/
def buildProcessed (e : NYTArticleExtractor) (article : List (String × J)) :
    List (String × J) :=
  let aJ := J.obj article
  let processed := dSet [] "headline" (extract_nested_field aJ "headline.main")
  let processed := dSet processed "headline_kicker" (extract_nested_field aJ "headline.kicker")
  let processed := dSet processed "headline_print" (extract_nested_field aJ "headline.print_headline")
  let processed := dSet processed "byline" (extract_nested_field aJ "byline.original")
  let processed := dSet processed "image_url" (extract_nested_field aJ "multimedia.default.url")
  let processed := dSet processed "keywords" (.str (keywordsField article))
  e.all_fields.foldl
    (fun d field =>
      if field ∈ ["headline", "byline", "multimedia", "keywords"] then d
      else dSet d field (catalogValue article field))
    processed

/-- `process_article` (`NYT_API.py` lines 130-176): extract every field,
then run the required-field loop.  Reading `self.required_fields` raises
`AttributeError` when the attribute was never assigned; otherwise the first
required field that is present in `processed` with value `None` raises
`FieldMissingError` carrying that field name and
`article.get('_id', 'unknown')`. -/
def process_article (e : NYTArticleExtractor) (article : List (String × J)) :
    Except PyError (List (String × J)) :=
  match e.required_fields with
  | none => .error (.attributeError "required_fields")
  | some required =>
    match required.find?
        (fun field => isNullBinding (dGet (buildProcessed e article) field)) with
    | some field => .error (.fieldMissing field ((dGet article "_id").getD (.str "unknown")))
    | none => .ok (buildProcessed e article)

/-- `process_multiple_articles` (`NYT_API.py` lines 178-211): fold over the
batch, appending successes in order; on any exception from
`process_article`, re-raise when `strict_mode` (the incremented local error
count is then lost with the frame), otherwise count the error and continue.
The returned pair is the success list together with the final error count.
`processLoop` is the loop of `process_multiple_articles`, carrying the
`processed_articles` accumulator (reversed) and the `errors` counter. -/
def processLoop (e : NYTArticleExtractor) (strict_mode : Bool) :
    List (List (String × J)) → List (List (String × J)) → Nat →
    Except PyError (List (List (String × J)) × Nat)
  | [], acc, errors => .ok (acc.reverse, errors)
  | article :: rest, acc, errors =>
    match process_article e article with
    | .ok processed => processLoop e strict_mode rest (processed :: acc) errors
    | .error err =>
      if strict_mode then .error err
      else processLoop e strict_mode rest acc (errors + 1)

def process_multiple_articles (e : NYTArticleExtractor)
    (articles : List (List (String × J))) (strict_mode : Bool) :
    Except PyError (List (List (String × J)) × Nat) :=
  processLoop e strict_mode articles [] 0

/-! ### Round trip of the JSON encoding -/

/-- The input after an encoded number must not continue with a digit; in the
encoder's output what follows a number is always `", "`, `]`, `}` or the end. -/
def noLeadingDigit : List Char → Bool
  | [] => true
  | c :: _ => !c.isDigit

theorem digitChar_isDigit (d : Nat) (h : d < 10) : (digitChar d).isDigit = true := by
  interval_cases d <;> decide

theorem digitVal_digitChar (d : Nat) (h : d < 10) : digitVal (digitChar d) = d := by
  interval_cases d <;> decide

theorem natCharsAux_irrel (f1 : Nat) : ∀ f2 n : Nat, n < f1 → n < f2 →
    natCharsAux f1 n = natCharsAux f2 n := by
  induction f1 with
  | zero => intro f2 n h1 h2; omega
  | succ f ih =>
    intro f2 n h1 h2
    match f2, h2 with
    | f2 + 1, h2 =>
      show (if n < 10 then _ else _) = (if n < 10 then _ else _)
      by_cases h : n < 10
      · rw [if_pos h, if_pos h]
      · rw [if_neg h, if_neg h, ih f2 (n / 10) (by omega) (by omega)]

theorem natChars_eq (n : Nat) :
    natChars n = if n < 10 then [digitChar n]
      else natChars (n / 10) ++ [digitChar (n % 10)] := by
  show natCharsAux (n + 1) n = _
  by_cases h : n < 10
  · rw [if_pos h]
    show (if n < 10 then _ else _) = _
    rw [if_pos h]
  · rw [if_neg h]
    show (if n < 10 then _ else _) = _
    rw [if_neg h, natCharsAux_irrel n (n / 10 + 1) (n / 10) (by omega) (by omega)]
    rfl

theorem natChars_ne_nil (n : Nat) : natChars n ≠ [] := by
  rw [natChars_eq]
  split <;> simp

theorem natChars_digits (n : Nat) : ∀ c ∈ natChars n, c.isDigit = true := by
  induction n using Nat.strong_induction_on with
  | _ n ih =>
    rw [natChars_eq]
    split
    · next h =>
      intro c hc
      simp only [List.mem_singleton] at hc
      subst hc
      exact digitChar_isDigit n h
    · next h =>
      intro c hc
      rcases List.mem_append.mp hc with hc | hc
      · exact ih (n / 10) (Nat.div_lt_self (by omega) (by omega)) c hc
      · simp only [List.mem_singleton] at hc
        subst hc
        exact digitChar_isDigit _ (Nat.mod_lt _ (by omega))

theorem digitsVal_concat (ds : List Char) (c : Char) :
    digitsVal (ds ++ [c]) = 10 * digitsVal ds + digitVal c := by
  simp [digitsVal, List.foldl_append]

theorem digitsVal_natChars (n : Nat) : digitsVal (natChars n) = n := by
  induction n using Nat.strong_induction_on with
  | _ n ih =>
    rw [natChars_eq]
    split
    · next h =>
      simp only [digitsVal, List.foldl_cons, List.foldl_nil, Nat.mul_zero, Nat.zero_add]
      exact digitVal_digitChar n h
    · next h =>
      rw [digitsVal_concat, ih (n / 10) (Nat.div_lt_self (by omega) (by omega)),
        digitVal_digitChar _ (Nat.mod_lt _ (by omega))]
      omega

theorem takeDigits_append (ds rest : List Char)
    (hds : ∀ c ∈ ds, c.isDigit = true) (hrest : noLeadingDigit rest = true) :
    takeDigits (ds ++ rest) = (ds, rest) := by
  induction ds with
  | nil =>
    cases rest with
    | nil => rfl
    | cons c cs =>
      simp only [noLeadingDigit, Bool.not_eq_true'] at hrest
      simp [takeDigits, hrest]
  | cons d ds ih =>
    have hd := hds d (List.mem_cons_self d ds)
    have ih' := ih (fun c hc => hds c (List.mem_cons_of_mem d hc))
    simp only [List.cons_append, takeDigits, hd, if_pos, List.append_eq, ih']

theorem parseNat_natChars (n : Nat) (rest : List Char)
    (hrest : noLeadingDigit rest = true) :
    parseNat (natChars n ++ rest) = some (n, rest) := by
  unfold parseNat
  rw [takeDigits_append _ _ (natChars_digits n) hrest]
  cases h : natChars n with
  | nil => exact absurd h (natChars_ne_nil n)
  | cons d ds =>
    show some (digitsVal (d :: ds), rest) = some (n, rest)
    rw [← h, digitsVal_natChars]

theorem isDigit_ne_minus (c : Char) (h : c.isDigit = true) : c ≠ '-' := by
  intro e
  subst e
  exact absurd h (by decide)

theorem intChars_head (n : Int) :
    ∃ c cs, intChars n = c :: cs ∧ (c = '-' ∨ c.isDigit = true) := by
  unfold intChars
  split
  · exact ⟨'-', natChars n.natAbs, rfl, Or.inl rfl⟩
  · obtain ⟨d, ds, hcons⟩ := List.exists_cons_of_ne_nil (natChars_ne_nil n.toNat)
    refine ⟨d, ds, hcons, Or.inr ?_⟩
    exact natChars_digits n.toNat d (by rw [hcons]; exact List.mem_cons_self d ds)

theorem parseNumber_intChars (n : Int) (rest : List Char)
    (hrest : noLeadingDigit rest = true) :
    parseNumber (intChars n ++ rest) = some (.num n, rest) := by
  unfold intChars
  split
  · next hneg =>
    simp only [List.cons_append, parseNumber]
    rw [if_pos trivial, parseNat_natChars _ _ hrest]
    have h2 : -((n.natAbs : Nat) : Int) = n := by omega
    show some (J.num (-((n.natAbs : Nat) : Int)), rest) = some (J.num n, rest)
    rw [h2]
  · next hpos =>
    obtain ⟨d, ds, hcons⟩ := List.exists_cons_of_ne_nil (natChars_ne_nil n.toNat)
    have hd : d.isDigit = true :=
      natChars_digits n.toNat d (by rw [hcons]; exact List.mem_cons_self d ds)
    rw [hcons]
    simp only [List.cons_append, parseNumber]
    rw [if_neg (isDigit_ne_minus d hd), ← List.cons_append, ← hcons,
      parseNat_natChars _ _ hrest]
    have h2 : ((n.toNat : Nat) : Int) = n := by omega
    show some (J.num ((n.toNat : Nat) : Int), rest) = some (J.num n, rest)
    rw [h2]

theorem stringMk_data (s : String) : String.mk s.data = s := rfl

theorem parseStringChars_escape (cs rest : List Char) :
    parseStringChars (escapeChars cs ++ '"' :: rest) = some (cs, rest) := by
  induction cs with
  | nil =>
    show parseStringChars ('"' :: rest) = some ([], rest)
    unfold parseStringChars
    rw [if_pos rfl]
  | cons c cs ih =>
    show parseStringChars ((escapeChar c ++ escapeChars cs) ++ '"' :: rest) = some (c :: cs, rest)
    unfold escapeChar
    by_cases h1 : c = '"'
    · subst h1
      simp [parseStringChars, unescapeChar, ih]
    · rw [if_neg h1]
      by_cases h2 : c = '\\'
      · subst h2
        simp [parseStringChars, unescapeChar, ih]
      · rw [if_neg h2]
        by_cases h3 : c = '\n'
        · subst h3
          simp [parseStringChars, unescapeChar, ih]
        · rw [if_neg h3]
          by_cases h4 : c = '\t'
          · subst h4
            simp [parseStringChars, unescapeChar, ih]
          · rw [if_neg h4]
            by_cases h5 : c = '\r'
            · subst h5
              simp [parseStringChars, unescapeChar, ih]
            · rw [if_neg h5]
              simp only [List.cons_append, List.nil_append]
              unfold parseStringChars
              rw [if_neg h1, if_neg h2, ih]
              rfl

theorem jfuel_pos (v : J) : 1 ≤ jfuel v := by
  cases v <;> simp [jfuel]

theorem noLeadingDigit_dumpMoreElems (xs : List J) (rest : List Char) :
    noLeadingDigit (dumpMoreElems xs ++ rest) = true := by
  cases xs <;> rfl

theorem noLeadingDigit_dumpMoreMembers (kvs : List (String × J)) (rest : List Char) :
    noLeadingDigit (dumpMoreMembers kvs ++ rest) = true := by
  cases kvs <;> rfl

theorem isDigit_ne (c : Char) (h : c.isDigit = true) (d : Char)
    (hd : d.isDigit = false) : c ≠ d := by
  intro e
  subst e
  rw [h] at hd
  cases hd

theorem dumpChars_head (v : J) :
    ∃ c cs, dumpChars v = c :: cs ∧ c ≠ ']' ∧ c ≠ '}' := by
  cases v with
  | null => exact ⟨'n', _, rfl, by decide, by decide⟩
  | bool b =>
    cases b
    · exact ⟨'f', _, rfl, by decide, by decide⟩
    · exact ⟨'t', _, rfl, by decide, by decide⟩
  | num n =>
    obtain ⟨c, cs, hcons, hc⟩ := intChars_head n
    refine ⟨c, cs, hcons, ?_, ?_⟩
    · rcases hc with h | h
      · subst h; decide
      · exact isDigit_ne c h ']' (by decide)
    · rcases hc with h | h
      · subst h; decide
      · exact isDigit_ne c h '}' (by decide)
  | str s => exact ⟨'"', _, rfl, by decide, by decide⟩
  | arr xs => cases xs <;> exact ⟨'[', _, rfl, by decide, by decide⟩
  | obj kvs => cases kvs <;> exact ⟨'{', _, rfl, by decide, by decide⟩


theorem parseValue_succ (f : Nat) (c : Char) (l : List Char) :
    parseValue (f + 1) (c :: l) =
      (if c = 'n' then
        match l with
        | 'u' :: 'l' :: 'l' :: r => some (.null, r)
        | _ => none
      else if c = 't' then
        match l with
        | 'r' :: 'u' :: 'e' :: r => some (.bool true, r)
        | _ => none
      else if c = 'f' then
        match l with
        | 'a' :: 'l' :: 's' :: 'e' :: r => some (.bool false, r)
        | _ => none
      else if c = '"' then
        (parseStringChars l).map (fun p => (.str (String.mk p.1), p.2))
      else if c = '[' then
        match l with
        | ']' :: r => some (.arr [], r)
        | _ => (parseElems f l).map (fun p => (.arr p.1, p.2))
      else if c = '{' then
        match l with
        | '}' :: r => some (.obj [], r)
        | _ => (parseMembers f l).map (fun p => (.obj p.1, p.2))
      else parseNumber (c :: l)) := rfl

theorem parseElems_succ (f : Nat) (cs : List Char) :
    parseElems (f + 1) cs =
      (match parseValue f cs with
      | none => none
      | some (v, rest) =>
        match rest with
        | ']' :: rest' => some ([v], rest')
        | ',' :: ' ' :: rest' => (parseElems f rest').map (fun p => (v :: p.1, p.2))
        | _ => none) := rfl

theorem parseMembers_succ (f : Nat) (l : List Char) :
    parseMembers (f + 1) ('"' :: l) =
      (match parseStringChars l with
      | none => none
      | some (kChars, rest1) =>
        match rest1 with
        | ':' :: ' ' :: rest2 =>
          match parseValue f rest2 with
          | none => none
          | some (v, rest3) =>
            match rest3 with
            | '}' :: rest4 => some ([(String.mk kChars, v)], rest4)
            | ',' :: ' ' :: rest4 =>
              (parseMembers f rest4).map (fun p => ((String.mk kChars, v) :: p.1, p.2))
            | _ => none
        | _ => none) := rfl

mutual

theorem parseValue_dump : ∀ (v : J) (fuel : Nat) (rest : List Char),
    jfuel v ≤ fuel → noLeadingDigit rest = true →
    parseValue fuel (dumpChars v ++ rest) = some (v, rest)
  | .null, fuel, rest, hf, hr => by
    obtain ⟨f, rfl⟩ : ∃ f, fuel = f + 1 := ⟨fuel - 1, by simp [jfuel] at hf; omega⟩
    rfl
  | .bool b, fuel, rest, hf, hr => by
    obtain ⟨f, rfl⟩ : ∃ f, fuel = f + 1 := ⟨fuel - 1, by simp [jfuel] at hf; omega⟩
    cases b <;> rfl
  | .num n, fuel, rest, hf, hr => by
    obtain ⟨f, rfl⟩ : ∃ f, fuel = f + 1 := ⟨fuel - 1, by simp [jfuel] at hf; omega⟩
    obtain ⟨c, cs, hcons, hc⟩ := intChars_head n
    have hne : c ≠ 'n' ∧ c ≠ 't' ∧ c ≠ 'f' ∧ c ≠ '"' ∧ c ≠ '[' ∧ c ≠ '{' := by
      rcases hc with h | h
      · subst h; exact ⟨by decide, by decide, by decide, by decide, by decide, by decide⟩
      · exact ⟨isDigit_ne c h 'n' (by decide), isDigit_ne c h 't' (by decide),
          isDigit_ne c h 'f' (by decide), isDigit_ne c h '"' (by decide),
          isDigit_ne c h '[' (by decide), isDigit_ne c h '{' (by decide)⟩
    show parseValue (f + 1) (intChars n ++ rest) = some (.num n, rest)
    rw [hcons]
    simp only [List.cons_append]
    rw [parseValue_succ]
    rw [if_neg hne.1, if_neg hne.2.1, if_neg hne.2.2.1, if_neg hne.2.2.2.1,
      if_neg hne.2.2.2.2.1, if_neg hne.2.2.2.2.2]
    rw [← List.cons_append, ← hcons]
    exact parseNumber_intChars n rest hr
  | .str s, fuel, rest, hf, hr => by
    obtain ⟨f, rfl⟩ : ∃ f, fuel = f + 1 := ⟨fuel - 1, by simp [jfuel] at hf; omega⟩
    show parseValue (f + 1)
      (('"' :: (escapeChars s.data ++ ['"'])) ++ rest) = some (.str s, rest)
    simp only [List.cons_append, List.append_assoc, List.singleton_append]
    rw [parseValue_succ]
    rw [if_neg (by decide), if_neg (by decide), if_neg (by decide), if_pos rfl]
    rw [parseStringChars_escape]
    simp [stringMk_data]
  | .arr [], fuel, rest, hf, hr => by
    obtain ⟨f, rfl⟩ : ∃ f, fuel = f + 1 := ⟨fuel - 1, by simp [jfuel] at hf; omega⟩
    rfl
  | .arr (x :: xs), fuel, rest, hf, hr => by
    obtain ⟨f, rfl⟩ : ∃ f, fuel = f + 1 := ⟨fuel - 1, by simp [jfuel] at hf; omega⟩
    show parseValue (f + 1)
      (('[' :: (dumpChars x ++ dumpMoreElems xs)) ++ rest) = some (.arr (x :: xs), rest)
    simp only [List.cons_append, List.append_assoc]
    rw [parseValue_succ]
    rw [if_neg (by decide), if_neg (by decide), if_neg (by decide),
      if_neg (by decide), if_pos rfl]
    obtain ⟨c, cs, hcons, hc1, hc2⟩ := dumpChars_head x
    rw [hcons]
    simp only [List.cons_append]
    split
    · next heq => exact absurd (List.head_eq_of_cons_eq heq) hc1
    · rw [← List.cons_append, ← hcons,
        parseElems_dump x xs f rest (by simp [jfuel, jelems] at hf ⊢; omega) hr]
      rfl
  | .obj [], fuel, rest, hf, hr => by
    obtain ⟨f, rfl⟩ : ∃ f, fuel = f + 1 := ⟨fuel - 1, by simp [jfuel] at hf; omega⟩
    rfl
  | .obj ((k, v) :: kvs), fuel, rest, hf, hr => by
    obtain ⟨f, rfl⟩ : ∃ f, fuel = f + 1 := ⟨fuel - 1, by simp [jfuel] at hf; omega⟩
    show parseValue (f + 1)
      (('{' :: (dumpMember (k, v) ++ dumpMoreMembers kvs)) ++ rest) =
      some (.obj ((k, v) :: kvs), rest)
    simp only [List.cons_append, List.append_assoc]
    rw [parseValue_succ]
    rw [if_neg (by decide), if_neg (by decide), if_neg (by decide),
      if_neg (by decide), if_neg (by decide), if_pos rfl]
    have hmem : dumpMember (k, v) ++ (dumpMoreMembers kvs ++ rest) =
        '"' :: (escapeChars k.data ++ '"' :: ':' :: ' ' ::
          (dumpChars v ++ (dumpMoreMembers kvs ++ rest))) := by
      show ('"' :: (escapeChars k.data ++ '"' :: ':' :: ' ' :: dumpChars v)) ++
        (dumpMoreMembers kvs ++ rest) = _
      simp [List.cons_append, List.append_assoc]
    rw [hmem]
    split
    · next heq =>
      have h2 : ('"' : Char) = '}' := List.head_eq_of_cons_eq heq
      exact absurd h2 (by decide)
    · rw [← hmem, parseMembers_dump k v kvs f rest
        (by simp [jfuel, jmembers] at hf ⊢; omega) hr]
      rfl
termination_by v _ _ _ _ => sizeOf v

theorem parseElems_dump : ∀ (x : J) (xs : List J) (fuel : Nat) (rest : List Char),
    jelems (x :: xs) ≤ fuel → noLeadingDigit rest = true →
    parseElems fuel (dumpChars x ++ (dumpMoreElems xs ++ rest)) = some (x :: xs, rest)
  | x, [], fuel, rest, hf, hr => by
    obtain ⟨f, rfl⟩ : ∃ f, fuel = f + 1 :=
      ⟨fuel - 1, by simp [jelems] at hf; have := jfuel_pos x; omega⟩
    have hx : jfuel x ≤ f := by simp [jelems] at hf; omega
    rw [parseElems_succ]
    rw [parseValue_dump x f (dumpMoreElems [] ++ rest) hx
      (noLeadingDigit_dumpMoreElems [] rest)]
    rfl
  | x, y :: ys, fuel, rest, hf, hr => by
    obtain ⟨f, rfl⟩ : ∃ f, fuel = f + 1 :=
      ⟨fuel - 1, by simp [jelems] at hf; have := jfuel_pos x; omega⟩
    have hx : jfuel x ≤ f := by simp [jelems] at hf; omega
    rw [parseElems_succ]
    rw [parseValue_dump x f (dumpMoreElems (y :: ys) ++ rest) hx
      (noLeadingDigit_dumpMoreElems (y :: ys) rest)]
    show Option.map (fun p => (x :: p.1, p.2))
      (parseElems f ((dumpChars y ++ dumpMoreElems ys) ++ rest)) = some (x :: y :: ys, rest)
    rw [List.append_assoc,
      parseElems_dump y ys f rest (by simp [jelems] at hf ⊢; omega) hr]
    rfl
termination_by x xs _ _ _ _ => sizeOf x + sizeOf xs
decreasing_by
all_goals simp_wf
all_goals omega

theorem parseMembers_dump : ∀ (k : String) (v : J) (kvs : List (String × J))
    (fuel : Nat) (rest : List Char),
    jmembers ((k, v) :: kvs) ≤ fuel → noLeadingDigit rest = true →
    parseMembers fuel (dumpMember (k, v) ++ (dumpMoreMembers kvs ++ rest)) =
      some ((k, v) :: kvs, rest)
  | k, v, [], fuel, rest, hf, hr => by
    obtain ⟨f, rfl⟩ : ∃ f, fuel = f + 1 :=
      ⟨fuel - 1, by simp [jmembers] at hf; have := jfuel_pos v; omega⟩
    have hv : jfuel v ≤ f := by simp [jmembers] at hf; omega
    have hmem : dumpMember (k, v) ++ (dumpMoreMembers ([] : List (String × J)) ++ rest) =
        '"' :: (escapeChars k.data ++ '"' :: ':' :: ' ' ::
          (dumpChars v ++ (dumpMoreMembers ([] : List (String × J)) ++ rest))) := by
      show ('"' :: (escapeChars k.data ++ '"' :: ':' :: ' ' :: dumpChars v)) ++
        (dumpMoreMembers ([] : List (String × J)) ++ rest) = _
      simp [List.cons_append, List.append_assoc]
    rw [hmem, parseMembers_succ, parseStringChars_escape]
    show (match (parseValue f (dumpChars v ++ (dumpMoreMembers ([] : List (String × J)) ++ rest)) :
        Option (J × List Char)) with
      | none => none
      | some (w, rest3) =>
        match rest3 with
        | '}' :: rest4 => some ([(String.mk k.data, w)], rest4)
        | ',' :: ' ' :: rest4 =>
          Option.map (fun p => ((String.mk k.data, w) :: p.1, p.2)) (parseMembers f rest4)
        | _ => none) = some ([(k, v)], rest)
    rw [parseValue_dump v f (dumpMoreMembers ([] : List (String × J)) ++ rest) hv
      (noLeadingDigit_dumpMoreMembers [] rest)]
    simp [stringMk_data, dumpMoreMembers]
  | k, v, (k2, v2) :: kvs2, fuel, rest, hf, hr => by
    obtain ⟨f, rfl⟩ : ∃ f, fuel = f + 1 :=
      ⟨fuel - 1, by simp [jmembers] at hf; have := jfuel_pos v; omega⟩
    have hv : jfuel v ≤ f := by simp [jmembers] at hf; omega
    have hmem : dumpMember (k, v) ++ (dumpMoreMembers ((k2, v2) :: kvs2) ++ rest) =
        '"' :: (escapeChars k.data ++ '"' :: ':' :: ' ' ::
          (dumpChars v ++ (dumpMoreMembers ((k2, v2) :: kvs2) ++ rest))) := by
      show ('"' :: (escapeChars k.data ++ '"' :: ':' :: ' ' :: dumpChars v)) ++
        (dumpMoreMembers ((k2, v2) :: kvs2) ++ rest) = _
      simp [List.cons_append, List.append_assoc]
    rw [hmem, parseMembers_succ, parseStringChars_escape]
    show (match (parseValue f (dumpChars v ++ (dumpMoreMembers ((k2, v2) :: kvs2) ++ rest)) :
        Option (J × List Char)) with
      | none => none
      | some (w, rest3) =>
        match rest3 with
        | '}' :: rest4 => some ([(String.mk k.data, w)], rest4)
        | ',' :: ' ' :: rest4 =>
          Option.map (fun p => ((String.mk k.data, w) :: p.1, p.2)) (parseMembers f rest4)
        | _ => none) = some ((k, v) :: (k2, v2) :: kvs2, rest)
    rw [parseValue_dump v f (dumpMoreMembers ((k2, v2) :: kvs2) ++ rest) hv
      (noLeadingDigit_dumpMoreMembers ((k2, v2) :: kvs2) rest)]
    show Option.map (fun p => ((String.mk k.data, v) :: p.1, p.2))
      (parseMembers f ((dumpMember (k2, v2) ++ dumpMoreMembers kvs2) ++ rest)) =
      some ((k, v) :: (k2, v2) :: kvs2, rest)
    rw [List.append_assoc,
      parseMembers_dump k2 v2 kvs2 f rest (by simp [jmembers] at hf ⊢; omega) hr]
    simp [stringMk_data]
termination_by _ v kvs _ _ _ _ => sizeOf v + sizeOf kvs
decreasing_by
all_goals simp_wf
all_goals omega

end

mutual

theorem jfuel_le_len : ∀ v : J, jfuel v ≤ (dumpChars v).length
  | .null => by simp [jfuel, dumpChars, nullChars]
  | .bool b => by cases b <;> simp [jfuel, dumpChars, trueChars, falseChars]
  | .num n => by
    obtain ⟨c, cs, hcons, h⟩ := intChars_head n
    show jfuel (.num n) ≤ (intChars n).length
    rw [hcons]
    simp [jfuel]
  | .str s => by simp [jfuel, dumpChars]
  | .arr [] => by simp [jfuel, jelems, dumpChars]
  | .arr (x :: xs) => by
    have h1 := jfuel_le_len x
    have h2 := jelems_le_len xs
    simp only [jfuel, jelems, dumpChars, List.length_cons, List.length_append] at h1 h2 ⊢
    omega
  | .obj [] => by simp [jfuel, jmembers, dumpChars]
  | .obj ((k, v) :: kvs) => by
    have h1 := jfuel_le_len v
    have h2 := jmembers_le_len kvs
    simp only [jfuel, jmembers, dumpChars, dumpMember, List.length_cons,
      List.length_append] at h1 h2 ⊢
    omega
termination_by v => sizeOf v

theorem jelems_le_len : ∀ xs : List J, jelems xs + 1 ≤ (dumpMoreElems xs).length
  | [] => by simp [jelems, dumpMoreElems]
  | x :: xs => by
    have h1 := jfuel_le_len x
    have h2 := jelems_le_len xs
    simp only [jelems, dumpMoreElems, List.length_cons, List.length_append] at h1 h2 ⊢
    omega
termination_by xs => sizeOf xs

theorem jmembers_le_len : ∀ kvs : List (String × J),
    jmembers kvs + 1 ≤ (dumpMoreMembers kvs).length
  | [] => by simp [jmembers, dumpMoreMembers]
  | (k, v) :: kvs => by
    have h1 := jfuel_le_len v
    have h2 := jmembers_le_len kvs
    simp only [jmembers, dumpMoreMembers, dumpMember, List.length_cons,
      List.length_append] at h1 h2 ⊢
    omega
termination_by kvs => sizeOf kvs

end

/-- The serialization round trip: decoding an encoded value restores it. -/
theorem json_loads_dumps (v : J) : json_loads (json_dumps v) = some v := by
  show (match parseValue ((dumpChars v).length + 1) (dumpChars v) with
    | some (w, []) => some w
    | _ => none) = some v
  have h := parseValue_dump v ((dumpChars v).length + 1) []
    (by have := jfuel_le_len v; omega) rfl
  rw [List.append_nil] at h
  rw [h]

/-! ### Shape of the processed record -/

/-- The `processed` dict spelled out: the six specially-extracted fields in
assignment order, then the fifteen catalog fields the flattening loop visits
(those of `all_fields` other than headline, byline, multimedia, keywords), in
catalog order. -/
def processedFields (article : List (String × J)) : List (String × J) :=
  [("headline", extract_nested_field (J.obj article) "headline.main"),
   ("headline_kicker", extract_nested_field (J.obj article) "headline.kicker"),
   ("headline_print", extract_nested_field (J.obj article) "headline.print_headline"),
   ("byline", extract_nested_field (J.obj article) "byline.original"),
   ("image_url", extract_nested_field (J.obj article) "multimedia.default.url"),
   ("keywords", .str (keywordsField article)),
   ("_id", catalogValue article "_id"),
   ("abstract", catalogValue article "abstract"),
   ("snippet", catalogValue article "snippet"),
   ("source", catalogValue article "source"),
   ("print_page", catalogValue article "print_page"),
   ("document_type", catalogValue article "document_type"),
   ("web_url", catalogValue article "web_url"),
   ("pub_date", catalogValue article "pub_date"),
   ("news_desk", catalogValue article "news_desk"),
   ("section_name", catalogValue article "section_name"),
   ("subsection_name", catalogValue article "subsection_name"),
   ("type_of_material", catalogValue article "type_of_material"),
   ("word_count", catalogValue article "word_count"),
   ("uri", catalogValue article "uri"),
   ("print_section", catalogValue article "print_section")]

/-- The fixed key set of every processed record, in insertion order. -/
def processedFieldNames : List String :=
  ["headline", "headline_kicker", "headline_print", "byline", "image_url", "keywords",
   "_id", "abstract", "snippet", "source", "print_page", "document_type", "web_url",
   "pub_date", "news_desk", "section_name", "subsection_name", "type_of_material",
   "word_count", "uri", "print_section"]

theorem buildProcessed_catalog (e : NYTArticleExtractor)
    (article : List (String × J)) (h : e.all_fields = catalogFields) :
    buildProcessed e article = processedFields article := by
  unfold buildProcessed
  rw [h]
  simp [catalogFields, dSet, processedFields, List.mem_cons]

theorem dKeys_processedFields (article : List (String × J)) :
    dKeys (processedFields article) = processedFieldNames := rfl

theorem process_article_ok_inv (e : NYTArticleExtractor)
    (article p : List (String × J)) (h : process_article e article = .ok p) :
    p = buildProcessed e article := by
  unfold process_article at h
  split at h
  · exact Except.noConfusion h
  · split at h
    · exact Except.noConfusion h
    · exact (Except.ok.inj h).symm

/-! ### Batch processing lemmas -/

theorem processLoop_lenient (e : NYTArticleExtractor) :
    ∀ (articles acc : List (List (String × J))) (errors : Nat),
    processLoop e false articles acc errors =
      .ok (acc.reverse ++ articles.filterMap (fun a => (process_article e a).toOption),
        errors + (articles.filter (fun a => !(process_article e a).toOption.isSome)).length)
  | [], acc, errors => by simp [processLoop]
  | a :: rest, acc, errors => by
    cases h : process_article e a with
    | ok p =>
      simp only [processLoop, h]
      rw [processLoop_lenient e rest (p :: acc) errors]
      simp [h, List.filterMap_cons, List.filter_cons, Except.toOption]
    | error err =>
      simp only [processLoop, h, Bool.false_eq_true, if_false]
      rw [processLoop_lenient e rest acc (errors + 1)]
      simp [h, List.filterMap_cons, List.filter_cons, Except.toOption]
      omega

theorem filterMap_add_filter_length {α β : Type} (f : α → Option β) :
    ∀ l : List α,
    (l.filterMap f).length + (l.filter (fun a => !(f a).isSome)).length = l.length
  | [] => rfl
  | a :: l => by
    have ih := filterMap_add_filter_length f l
    cases h : f a with
    | some b =>
      simp only [List.filterMap_cons, List.filter_cons, h, Option.isSome_some,
        Bool.not_true, Bool.false_eq_true, if_false, List.length_cons]
      omega
    | none =>
      simp only [List.filterMap_cons, List.filter_cons, h, Option.isSome_none,
        Bool.not_false, if_true, List.length_cons]
      omega

theorem processLoop_strict_error (e : NYTArticleExtractor)
    (a : List (String × J)) (err : PyError) (post : List (List (String × J)))
    (ha : process_article e a = .error err) :
    ∀ (pre : List (List (String × J))) (acc : List (List (String × J))) (errors : Nat),
      (∀ b ∈ pre, ∃ p, process_article e b = .ok p) →
      processLoop e true (pre ++ a :: post) acc errors = .error err
  | [], acc, errors, hpre => by simp [processLoop, ha]
  | b :: pre, acc, errors, hpre => by
    obtain ⟨p, hp⟩ := hpre b (List.mem_cons_self b pre)
    simp only [List.cons_append, processLoop, hp]
    exact processLoop_strict_error e a err post ha pre (p :: acc) errors
      (fun c hc => hpre c (List.mem_cons_of_mem b hc))

/-! ### Concrete fixtures for witnesses -/

/-- An extractor state as `process_article` expects it: the constructor's
attributes with the `required_fields` attribute set (the only state in which
the required-field loop runs at all). -/
def sampleExtractor : NYTArticleExtractor :=
  { NYTArticleExtractor.init "key" none none with required_fields := some ["headline"] }

/-- An article that passes the `{"headline"}` required-field check. -/
def sampleGoodArticle : List (String × J) :=
  [("_id", .str "1"), ("headline", .obj [("main", .str "X")]), ("pub_date", .str "2020")]

/-- An article with no headline data: `headline` extracts to `None`. -/
def sampleBadArticle : List (String × J) := [("_id", .str "2")]

/-- An article whose `multimedia` value is a sequence, plus headline data. -/
def sampleMultimediaArticle : List (String × J) :=
  [("headline", .obj [("main", .str "X")]),
   ("multimedia", .arr [.obj [("default", .obj [("url", .str "https://img")])]])]

/-! ### Lemmas about constructor-built extractors -/

theorem init_filterMap_none (api_key : String) (base_url : Option String)
    (fields : Option (List String)) :
    ∀ l : List (List (String × J)),
    l.filterMap
      (fun a => (process_article (NYTArticleExtractor.init api_key base_url fields) a).toOption) = []
  | [] => rfl
  | a :: l => by
    rw [List.filterMap_cons]
    rw [show (process_article (NYTArticleExtractor.init api_key base_url fields) a).toOption =
      none from rfl]
    exact init_filterMap_none api_key base_url fields l

theorem init_filter_all (api_key : String) (base_url : Option String)
    (fields : Option (List String)) :
    ∀ l : List (List (String × J)),
    (l.filter (fun a =>
      !(process_article (NYTArticleExtractor.init api_key base_url fields) a).toOption.isSome)).length
      = l.length
  | [] => rfl
  | a :: l => by
    rw [List.filter_cons]
    rw [show (!(process_article (NYTArticleExtractor.init api_key base_url fields) a).toOption.isSome)
      = true from rfl]
    rw [if_pos rfl, List.length_cons, init_filter_all api_key base_url fields l]
    rfl

/-! ### The claims -/

/-- C1: the spec's normalize contract — `process_article` fails with
`FieldMissingError` exactly when a required field extracts to null — does not
hold of the code: a constructor-built extractor (here with caller fields
`["headline"]`) raises `AttributeError` on the `self.required_fields` read
for every article, both for a record with no headline data (where the claim
expects `FieldMissingError`) and for a fully populated record (where the
claim expects success). -/
theorem claim_C1_attribute_error_eval :
    process_article (NYTArticleExtractor.init "key" none (some ["headline"])) [] =
      .error (.attributeError "required_fields") ∧
    process_article (NYTArticleExtractor.init "key" none (some ["headline"]))
      [("_id", .str "1"), ("headline", .obj [("main", .str "X")]), ("pub_date", .str "2020")] =
      .error (.attributeError "required_fields") := ⟨rfl, rfl⟩

/-- C2: the constructor does not configure the RequiredFieldSet from the
caller-supplied list: `['_id', 'headline', 'pub_date'] or fields` evaluates
to the literal, so `self.fields` is the default even when the caller passes
`["_id"]`, and `self.required_fields` — the attribute the check in
`process_article` reads — is never assigned at all. -/
theorem claim_C2_constructor_misconfigures :
    (NYTArticleExtractor.init "key" none (some ["_id"])).fields =
      ["_id", "headline", "pub_date"] ∧
    (NYTArticleExtractor.init "key" none (some ["_id"])).required_fields = none := ⟨rfl, rfl⟩

/-- C3: no constructor path assigns the `required_fields` attribute that
`process_article` reads (the constructor assigns `self.fields` instead), so
`process_article` on a constructor-built extractor raises the attribute
lookup error on every article and never returns a flat record; hence every
non-empty batch propagates that error in strict mode, and lenient mode
returns an empty success list with every record counted as an error. -/
theorem claim_C3_required_fields_never_assigned
    (api_key : String) (base_url : Option String) (fields : Option (List String))
    (article : List (String × J)) (articles : List (List (String × J))) :
    (NYTArticleExtractor.init api_key base_url fields).required_fields = none ∧
    process_article (NYTArticleExtractor.init api_key base_url fields) article =
      .error (.attributeError "required_fields") ∧
    (articles ≠ [] →
      process_multiple_articles (NYTArticleExtractor.init api_key base_url fields)
        articles true = .error (.attributeError "required_fields")) ∧
    process_multiple_articles (NYTArticleExtractor.init api_key base_url fields)
      articles false = .ok ([], articles.length) := by
  refine ⟨rfl, rfl, ?_, ?_⟩
  · intro hne
    cases articles with
    | nil => exact absurd rfl hne
    | cons a rest => rfl
  · show processLoop (NYTArticleExtractor.init api_key base_url fields) false articles [] 0 =
      .ok ([], articles.length)
    rw [processLoop_lenient, init_filterMap_none, init_filter_all]
    simp

/-- Witness for C3 at concrete inputs. -/
theorem claim_C3_witness :
    (([sampleBadArticle] : List (List (String × J))) ≠ [] →
      process_multiple_articles (NYTArticleExtractor.init "key" none none)
        [sampleBadArticle] true = .error (.attributeError "required_fields")) ∧
    process_multiple_articles (NYTArticleExtractor.init "key" none none)
      [sampleBadArticle] false = .ok ([], 1) :=
  ⟨(claim_C3_required_fields_never_assigned "key" none none [] [sampleBadArticle]).2.2.1,
   (claim_C3_required_fields_never_assigned "key" none none [] [sampleBadArticle]).2.2.2⟩

/-- C4: lenient batch processing returns the in-order normalized records of
exactly the successfully processed inputs, and the success-list length plus
the error count equals the input length. -/
theorem claim_C4_lenient_accounting (e : NYTArticleExtractor)
    (articles : List (List (String × J))) :
    ∃ successes errors,
      process_multiple_articles e articles false = .ok (successes, errors) ∧
      successes = articles.filterMap (fun a => (process_article e a).toOption) ∧
      successes.length + errors = articles.length := by
  refine ⟨articles.filterMap (fun a => (process_article e a).toOption),
    (articles.filter (fun a => !(process_article e a).toOption.isSome)).length, ?_, rfl, ?_⟩
  · show processLoop e false articles [] 0 = _
    rw [processLoop_lenient]
    simp
  · exact filterMap_add_filter_length _ articles

/-- C5: in strict mode, a batch whose prefix normalizes successfully and
whose next record fails re-raises that record's error: the caller receives
no success list and no partial result. -/
theorem claim_C5_strict_abort (e : NYTArticleExtractor)
    (pre post : List (List (String × J))) (a : List (String × J)) (err : PyError)
    (hpre : ∀ b ∈ pre, ∃ p, process_article e b = .ok p)
    (ha : process_article e a = .error err) :
    process_multiple_articles e (pre ++ a :: post) true = .error err :=
  processLoop_strict_error e a err post ha pre [] 0 hpre

/-- Witness for C5: a good record followed by a record with no headline
data, under required field set `{"headline"}`. -/
theorem claim_C5_witness :
    process_multiple_articles sampleExtractor
      ([sampleGoodArticle] ++ sampleBadArticle :: []) true =
      .error (.fieldMissing "headline" (.str "2")) :=
  claim_C5_strict_abort sampleExtractor [sampleGoodArticle] [] sampleBadArticle _
    (by
      intro b hb
      rw [List.mem_singleton] at hb
      subst hb
      exact ⟨buildProcessed sampleExtractor sampleGoodArticle, rfl⟩)
    rfl

/-- C6: whenever `process_article` returns, the key set of the returned flat
mapping is the fixed 21-name catalog-derived field list, independent of the
input article. -/
theorem claim_C6_schema_uniformity (e : NYTArticleExtractor)
    (article p : List (String × J)) (hcat : e.all_fields = catalogFields)
    (h : process_article e article = .ok p) :
    dKeys p = processedFieldNames := by
  rw [process_article_ok_inv e article p h, buildProcessed_catalog e article hcat]
  rfl

/-- Witness for C6 at a concrete extractor and article. -/
theorem claim_C6_witness :
    dKeys (buildProcessed sampleExtractor sampleGoodArticle) = processedFieldNames :=
  claim_C6_schema_uniformity sampleExtractor sampleGoodArticle
    (buildProcessed sampleExtractor sampleGoodArticle) rfl rfl

/-- C7: `extract_nested_field` splits the path on dots and walks segment by
segment: through a dict it descends on a present key, and at the first
segment where the current value is not a dict or the key is absent it
returns null.  It is a total function (never an error).  The spec's three
examples are included. -/
theorem claim_C7_dotted_path_walk :
    (∀ (path : String) (article : J),
      extract_nested_field article path =
        extract_nested_field.walk (splitDot path) article) ∧
    (∀ (p : String) (ps : List String) (kvs : List (String × J)) (v : J),
      dGet kvs p = some v →
      extract_nested_field.walk (p :: ps) (.obj kvs) = extract_nested_field.walk ps v) ∧
    (∀ (p : String) (ps : List String) (kvs : List (String × J)),
      dGet kvs p = none → extract_nested_field.walk (p :: ps) (.obj kvs) = .null) ∧
    (∀ (p : String) (ps : List String) (v : J), (∀ kvs, v ≠ .obj kvs) →
      extract_nested_field.walk (p :: ps) v = .null) ∧
    extract_nested_field (.obj [("headline", .obj [("main", .str "X")])]) "headline.main" =
      .str "X" ∧
    extract_nested_field (.obj [("headline", .obj [])]) "headline.main" = .null ∧
    extract_nested_field (.obj []) "headline.main" = .null := by
  refine ⟨fun path article => rfl, ?_, ?_, ?_, rfl, rfl, rfl⟩
  · intro p ps kvs v h
    show (match dGet kvs p with
      | some v => extract_nested_field.walk ps v
      | none => J.null) = extract_nested_field.walk ps v
    rw [h]
  · intro p ps kvs h
    show (match dGet kvs p with
      | some v => extract_nested_field.walk ps v
      | none => J.null) = J.null
    rw [h]
  · intro p ps v hv
    cases v with
    | obj kvs => exact absurd rfl (hv kvs)
    | null => rfl
    | bool b => rfl
    | num n => rfl
    | str s => rfl
    | arr xs => rfl

/-- Witness for C7: the descent step at a concrete dict and key. -/
theorem claim_C7_witness :
    extract_nested_field.walk ("headline" :: ["main"])
      (.obj [("headline", .obj [("main", .str "X")])]) =
      extract_nested_field.walk ["main"] (.obj [("main", .str "X")]) :=
  claim_C7_dotted_path_walk.2.1 "headline" ["main"]
    [("headline", .obj [("main", .str "X")])] (.obj [("main", .str "X")]) rfl

/-- C8: the keywords field of the output is the comma-separated join of the
elements' `value` sub-fields when the raw keywords value is a present,
non-empty list of dicts with string (or absent, contributing `""`) values;
it is `""` when the keywords key is absent or its value is an empty list;
and any malformed element degrades the whole field to `""` instead of
failing the record.  The spec's three examples are included. -/
theorem claim_C8_keywords_aggregation (article : List (String × J)) :
    (∀ (kws : List J) (vals : List String),
      dGet article "keywords" = some (.arr kws) → kws ≠ [] →
      kws.mapM keywordValue = some vals →
      keywordsField article = String.intercalate "," vals) ∧
    (dGet article "keywords" = none → keywordsField article = "") ∧
    (dGet article "keywords" = some (.arr []) → keywordsField article = "") ∧
    (∀ kws : List J, dGet article "keywords" = some (.arr kws) →
      kws.mapM keywordValue = none → keywordsField article = "") ∧
    keywordsField [("keywords", .arr [.obj [("value", .str "a")], .obj [("value", .str "b")]])] =
      "a,b" ∧
    keywordsField [("keywords", .arr [])] = "" ∧
    keywordsField [] = "" := by
  refine ⟨?_, ?_, ?_, ?_, rfl, rfl, rfl⟩
  · intro kws vals h hne hmap
    have htr : truthy (.arr kws) = true := by
      cases kws with
      | nil => exact absurd rfl hne
      | cons x xs => rfl
    unfold keywordsField
    rw [h]
    show (if truthy (.arr kws) = true then (keywordsJoin (.arr kws)).getD "" else "") =
      String.intercalate "," vals
    rw [htr, if_pos rfl]
    show ((kws.mapM keywordValue).map (String.intercalate ",")).getD "" = _
    rw [hmap]
    rfl
  · intro h
    unfold keywordsField
    rw [h]
  · intro h
    unfold keywordsField
    rw [h]
    rfl
  · intro kws h hmap
    unfold keywordsField
    rw [h]
    cases kws with
    | nil => rfl
    | cons x xs =>
      show (if truthy (.arr (x :: xs)) = true
        then (keywordsJoin (.arr (x :: xs))).getD "" else "") = ""
      rw [show truthy (J.arr (x :: xs)) = true from rfl, if_pos rfl]
      show ((( x :: xs).mapM keywordValue).map (String.intercalate ",")).getD "" = ""
      rw [hmap]
      rfl

/-- Witness for C8: the join branch at the spec's example. -/
theorem claim_C8_witness :
    keywordsField [("keywords", .arr [.obj [("value", .str "a")], .obj [("value", .str "b")]])] =
      String.intercalate "," ["a", "b"] :=
  (claim_C8_keywords_aggregation
      [("keywords", .arr [.obj [("value", .str "a")], .obj [("value", .str "b")]])]).1
    [.obj [("value", .str "a")], .obj [("value", .str "b")]] ["a", "b"]
    rfl (fun h => List.noConfusion h) rfl

theorem dGet_processedFields_catalog (article : List (String × J)) (field : String)
    (hmem : field ∈ catalogFields)
    (hnot : field ∉ (["headline", "byline", "multimedia", "keywords"] : List String)) :
    dGet (processedFields article) field = some (catalogValue article field) := by
  fin_cases hmem
  · rfl
  · exact absurd (by simp) hnot
  · exact absurd (by simp) hnot
  · rfl
  · rfl
  · rfl
  · rfl
  · exact absurd (by simp) hnot
  · rfl
  · rfl
  · rfl
  · rfl
  · rfl
  · rfl
  · rfl
  · rfl
  · rfl
  · exact absurd (by simp) hnot
  · rfl

/-- C9: a catalog field other than headline, byline, multimedia and keywords
whose raw value is a dict or a list is stored as its `json.dumps` string,
and decoding that string restores the original structure; when the field is
absent from the raw record the output stores null. -/
theorem claim_C9_structured_serialization (e : NYTArticleExtractor)
    (article : List (String × J)) (field : String)
    (hcat : e.all_fields = catalogFields)
    (hmem : field ∈ catalogFields)
    (hnot : field ∉ (["headline", "byline", "multimedia", "keywords"] : List String)) :
    (dGet article field = none →
      dGet (buildProcessed e article) field = some .null) ∧
    (∀ kvs, dGet article field = some (.obj kvs) →
      dGet (buildProcessed e article) field = some (.str (json_dumps (.obj kvs))) ∧
      json_loads (json_dumps (.obj kvs)) = some (.obj kvs)) ∧
    (∀ xs, dGet article field = some (.arr xs) →
      dGet (buildProcessed e article) field = some (.str (json_dumps (.arr xs))) ∧
      json_loads (json_dumps (.arr xs)) = some (.arr xs)) := by
  rw [buildProcessed_catalog e article hcat]
  have hget := dGet_processedFields_catalog article field hmem hnot
  refine ⟨?_, ?_, ?_⟩
  · intro h
    rw [hget]
    unfold catalogValue
    rw [h]
  · intro kvs h
    refine ⟨?_, json_loads_dumps _⟩
    rw [hget]
    unfold catalogValue
    rw [h]
  · intro xs h
    refine ⟨?_, json_loads_dumps _⟩
    rw [hget]
    unfold catalogValue
    rw [h]

/-- Witness for C9: the `abstract` field holding a dict. -/
theorem claim_C9_witness :
    dGet (buildProcessed sampleExtractor [("abstract", .obj [("a", .num 1)])]) "abstract" =
      some (.str (json_dumps (.obj [("a", .num 1)]))) ∧
    json_loads (json_dumps (.obj [("a", .num 1)])) = some (.obj [("a", .num 1)]) :=
  (claim_C9_structured_serialization sampleExtractor [("abstract", .obj [("a", .num 1)])]
      "abstract" rfl (by simp [catalogFields]) (by simp)).2.1 [("a", .num 1)] rfl

/-- C10: the dotted-path walker returns null at any sequence, so a record
whose `multimedia` value is a sequence extracts a null `image_url`,
whatever the sequence holds. -/
theorem claim_C10_no_sequence_indexing (e : NYTArticleExtractor)
    (article p : List (String × J)) (xs : List J)
    (hcat : e.all_fields = catalogFields)
    (hmm : dGet article "multimedia" = some (.arr xs)) :
    (∀ (q : String) (qs : List String) (ys : List J),
      extract_nested_field.walk (q :: qs) (.arr ys) = .null) ∧
    extract_nested_field (.obj article) "multimedia.default.url" = .null ∧
    (process_article e article = .ok p → dGet p "image_url" = some .null) := by
  have hwalk : extract_nested_field (.obj article) "multimedia.default.url" = .null := by
    show extract_nested_field.walk ("multimedia" :: "default" :: "url" :: []) (.obj article) =
      .null
    show (match dGet article "multimedia" with
      | some v => extract_nested_field.walk ["default", "url"] v
      | none => J.null) = J.null
    rw [hmm]
    rfl
  refine ⟨fun q qs ys => rfl, hwalk, ?_⟩
  intro hok
  rw [process_article_ok_inv e article p hok, buildProcessed_catalog e article hcat]
  rw [show dGet (processedFields article) "image_url" =
    some (extract_nested_field (.obj article) "multimedia.default.url") from rfl]
  rw [hwalk]

/-- Witness for C10 at a concrete record with a multimedia sequence. -/
theorem claim_C10_witness :
    extract_nested_field (.obj sampleMultimediaArticle) "multimedia.default.url" = .null ∧
    dGet (buildProcessed sampleExtractor sampleMultimediaArticle) "image_url" =
      some .null :=
  ⟨(claim_C10_no_sequence_indexing sampleExtractor sampleMultimediaArticle
      (buildProcessed sampleExtractor sampleMultimediaArticle)
      [.obj [("default", .obj [("url", .str "https://img")])]] rfl rfl).2.1,
   (claim_C10_no_sequence_indexing sampleExtractor sampleMultimediaArticle
      (buildProcessed sampleExtractor sampleMultimediaArticle)
      [.obj [("default", .obj [("url", .str "https://img")])]] rfl rfl).2.2 rfl⟩
